import Mathlib

/-!
Shallow embedding of `metrics_calculator.py` (class `MicroserviceMetricsCalculator`),
the metrics-calculation engine for microservice decomposition schemes.

Python dictionaries that are only read through key lookup (`operations`,
`op_type_map`, `op_weights`) are embedded as `String → Option _`; the ordered
`schemes` dictionary is an association list.  Python `float` arithmetic is
embedded as exact rational arithmetic over `ℚ`.  Python sets are `Finset String`;
the `defaultdict(int)` access counter is a total function `String → Nat` that is
zero outside the keys ever incremented.
-/

/-- An operation's accessed attributes: `{"read": [...], "write": [...]}`
(Python lists, built by `extend` in `load_operations`). -/
structure Operation where
  read : List String
  write : List String
deriving DecidableEq

/-- A service inside a scheme: `{"name": ..., "use_cases": ...}`. -/
structure Service where
  name : String
  use_cases : List String
deriving DecidableEq

/-- One row of the detailed results (the dict appended at lines 287-306). -/
structure OpRecord where
  scheme : String
  service : String
  noo : Nat
  lcom : ℚ
  sgm : ℚ
  mf : Nat
  m : Nat
  f : Nat
  operation : String
  ipr : Nat
  opr : Nat
  fp : Nat
  cp : Nat
  ot : Int
  o : Int
  dgs : ℚ
  fgs : ℚ
  sgm_op : ℚ
deriving DecidableEq

/-- The per-scheme metrics dictionary `{"ALCOM": _, "ASGM": _, "Max_NOO": _}`. -/
structure SchemeMetrics where
  ALCOM : ℚ
  ASGM : ℚ
  Max_NOO : Nat
deriving DecidableEq

/-- One row of the scheme summary built in `calculate_metrics`. -/
structure SchemeSummary where
  scheme : String
  ALCOM : ℚ
  ASGM : ℚ
  max_noo : Nat
deriving DecidableEq

/-- The calculator state after `__init__`: the five loaded catalogues. -/
structure Calculator where
  entities : String → Option (List String)
  operations : String → Option Operation
  op_type_map : String → Option String
  op_weights : String → Option Int
  schemes : List (String × List Service)

/-- The per-service accumulators of lines 220-223: `all_params`,
`param_access_count`, `read_params`, `write_params`. -/
structure AggState where
  all_params : Finset String
  count : String → Nat
  read_params : Finset String
  write_params : Finset String

/-- Initial accumulator state (empty sets, all counters zero). -/
def AggState.init : AggState :=
  ⟨∅, fun _ => 0, ∅, ∅⟩

/-- Lines 230-233: record one read access of `p`. -/
def AggState.addRead (st : AggState) (p : String) : AggState :=
  { st with
    all_params := insert p st.all_params
    count := Function.update st.count p (st.count p + 1)
    read_params := insert p st.read_params }

/-- Lines 234-237: record one write access of `p`. -/
def AggState.addWrite (st : AggState) (p : String) : AggState :=
  { st with
    all_params := insert p st.all_params
    count := Function.update st.count p (st.count p + 1)
    write_params := insert p st.write_params }

/-- Lines 225-237: the aggregation loop over the service's use cases.
Use cases without an operation definition are skipped (with a warning). -/
def aggregateParams (ops : String → Option Operation) (use_cases : List String) :
    AggState :=
  use_cases.foldl
    (fun st uc =>
      match ops uc with
      | none => st
      | some op => op.write.foldl AggState.addWrite (op.read.foldl AggState.addRead st))
    AggState.init

/-- Line 240: `mf_sum = sum(param_access_count.values())`.  Every key the
defaultdict ever holds is also inserted into `all_params` by the same loop
iteration, and `count` is zero elsewhere, so the sum of the dict's values is
the sum of `count` over `all_params`. -/
def mfSum (st : AggState) : Nat :=
  ∑ p ∈ st.all_params, st.count p

/-- The per-operation dictionary built at lines 267-275 (before FGS is added). -/
structure OpDetail where
  operation : String
  ipr : Nat
  opr : Nat
  fp : Nat
  cp : Nat
  ot : Int
  dgs : ℚ
deriving DecidableEq

/-- Lines 254-255: the operation's type weight `OT` — type looked up in
`op_type_map` with default `"Read"`, weight looked up in `op_weights` with
default `1`. -/
def otOf (c : Calculator) (uc : String) : Int :=
  let op_type := (c.op_type_map uc).getD "Read"
  (c.op_weights op_type).getD 1

/-- Lines 263-264: `len(read_params) if read_params else 1` (Python set
truthiness: an empty set is falsy). -/
def fpOf (s : Finset String) : Nat :=
  if s = ∅ then 1 else s.card

/-- Lines 258-275: the per-operation detail row for one known use case. -/
def detailFor (c : Calculator) (read_params write_params : Finset String)
    (uc : String) (op : Operation) : OpDetail :=
  let uc_read := op.read.toFinset
  let uc_write := op.write.toFinset
  let ipr := uc_read.card
  let opr := uc_write.card
  let fp := fpOf read_params
  let cp := fpOf write_params
  let dgs : ℚ :=
    min 1 ((ipr : ℚ) / (max 1 fp : Nat) + (opr : ℚ) / (max 1 cp : Nat))
  ⟨uc, ipr, opr, fp, cp, otOf c uc, dgs⟩

/-- One iteration of the loop at lines 249-275: unknown use cases are skipped
(`continue`), known ones append a detail row and add their `OT` to the running
`service_weight`. -/
def detailStep (c : Calculator) (read_params write_params : Finset String)
    (acc : List OpDetail × Int) (uc : String) : List OpDetail × Int :=
  match c.operations uc with
  | none => acc
  | some op => (acc.1 ++ [detailFor c read_params write_params uc op], acc.2 + otOf c uc)

/-- Lines 246-275: the DGS/weight loop.  Returns `operation_details` and the
accumulated `service_weight`. -/
def opDetailsAndWeight (c : Calculator) (use_cases : List String)
    (read_params write_params : Finset String) : List OpDetail × Int :=
  use_cases.foldl (detailStep c read_params write_params) ([], 0)

/-- The per-service slice of the loop body of `calculate_scheme_metrics`
(lines 216-306 for one service with a non-empty use-case list): the emitted
records, the service's LCOM and its SGM. -/
structure ServiceResult where
  records : List OpRecord
  lcom : ℚ
  sgm : ℚ
deriving DecidableEq

/-- Lines 216-306 for one service: aggregation, LCOM, per-operation
DGS/OT/FGS/SGM_Operation, and the emitted result rows. -/
def processService (c : Calculator) (scheme_name : String) (service : Service) :
    ServiceResult :=
  let use_cases := service.use_cases
  let noo := use_cases.length
  let agg := aggregateParams c.operations use_cases
  let mf_sum := mfSum agg
  let m := noo
  let f := agg.all_params.card
  let lcom : ℚ :=
    if m * f > 0 then 1 - (mf_sum : ℚ) / ((m : ℚ) * (f : ℚ)) else 0
  let dw := opDetailsAndWeight c use_cases agg.read_params agg.write_params
  let operation_details := dw.1
  let service_weight := dw.2
  let withFgs := operation_details.map fun op =>
    let fgs : ℚ :=
      if service_weight > 0 then (op.ot : ℚ) / (service_weight : ℚ) else 0
    (op, fgs, op.dgs * fgs)
  let sgm : ℚ := (withFgs.map fun x => x.2.2).sum
  let records := withFgs.map fun x =>
    { scheme := scheme_name
      service := service.name
      noo := noo
      lcom := lcom
      sgm := sgm
      mf := mf_sum
      m := m
      f := f
      operation := x.1.operation
      ipr := x.1.ipr
      opr := x.1.opr
      fp := x.1.fp
      cp := x.1.cp
      ot := x.1.ot
      o := service_weight
      dgs := x.1.dgs
      fgs := x.2.1
      sgm_op := x.2.2 : OpRecord }
  ⟨records, lcom, sgm⟩

/-- The running accumulator of the scheme loop: results so far, the ALCOM and
ASGM sums, and the running `Max_NOO`. -/
def schemeStep (c : Calculator) (scheme_name : String)
    (acc : List OpRecord × ℚ × ℚ × Nat) (service : Service) :
    List OpRecord × ℚ × ℚ × Nat :=
  if service.use_cases = [] then acc
  else
    let noo := service.use_cases.length
    let sr := processService c scheme_name service
    (acc.1 ++ sr.records, acc.2.1 + sr.lcom, acc.2.2.1 + sr.sgm, max acc.2.2.2 noo)

/-- Lines 198-317: `calculate_scheme_metrics`.  An empty service list raises
`ValueError("No services defined for this scheme")`, embedded as `.error`. -/
def calculate_scheme_metrics (c : Calculator) (scheme_name : String)
    (services : List Service) :
    Except String (List OpRecord × SchemeMetrics) :=
  if services = [] then .error "No services defined for this scheme"
  else
    let service_count := services.length
    let st := services.foldl (schemeStep c scheme_name) ([], 0, 0, 0)
    let alcom := if service_count > 0 then st.2.1 / (service_count : ℚ) else st.2.1
    let asgm := if service_count > 0 then st.2.2.1 / (service_count : ℚ) else st.2.2.1
    .ok (st.1, ⟨alcom, asgm, st.2.2.2⟩)

/-- One iteration of the batch loop of lines 179-194: a scheme whose
processing raises is skipped (`except ... continue`); a successful scheme
extends the flat result list and appends one summary row. -/
def batchStep (c : Calculator) (acc : List OpRecord × List SchemeSummary)
    (s : String × List Service) : List OpRecord × List SchemeSummary :=
  match calculate_scheme_metrics c s.1 s.2 with
  | .error _ => acc
  | .ok (rs, m) => (acc.1 ++ rs, acc.2 ++ [⟨s.1, m.ALCOM, m.ASGM, m.Max_NOO⟩])

/-- The batch loop of lines 179-194 over a scheme list. -/
def calcSchemes (c : Calculator) (schemes : List (String × List Service)) :
    List OpRecord × List SchemeSummary :=
  schemes.foldl (batchStep c) ([], [])

/-- Lines 170-196: `calculate_metrics`.  With no schemes it returns two empty
collections; otherwise it folds over all schemes. -/
def calculate_metrics (c : Calculator) : List OpRecord × List SchemeSummary :=
  if c.schemes = [] then ([], [])
  else calcSchemes c c.schemes

/-- `calculate_metrics` as an explicit state transformer: the method body only
reads `self` (all its mutation is on loop-local accumulators), so the
post-state is the pre-state unchanged. -/
def calculate_metricsRun (c : Calculator) :
    (List OpRecord × List SchemeSummary) × Calculator :=
  (calculate_metrics c, c)

/-- The aggregate `service_weight` of one service (the second component of the
DGS/weight loop, fed with the service's own aggregated read/write sets). -/
def serviceWeightOf (c : Calculator) (svc : Service) : Int :=
  (opDetailsAndWeight c svc.use_cases
    (aggregateParams c.operations svc.use_cases).read_params
    (aggregateParams c.operations svc.use_cases).write_params).2

/-- A service's contribution to the scheme's `ALCOM` sum: a service with an
empty use-case list is skipped and contributes `0`; otherwise its LCOM. -/
def serviceLCOM (c : Calculator) (scheme_name : String) (svc : Service) : ℚ :=
  if svc.use_cases = [] then 0 else (processService c scheme_name svc).lcom

/-- A service's contribution to the scheme's `ASGM` sum: a service with an
empty use-case list is skipped and contributes `0`; otherwise its SGM. -/
def serviceSGM (c : Calculator) (scheme_name : String) (svc : Service) : ℚ :=
  if svc.use_cases = [] then 0 else (processService c scheme_name svc).sgm

/-- The sum of `OT` over the use cases that have an entry in the operations
catalogue — the value `service_weight` actually accumulates. -/
def knownWeightSum (c : Calculator) (use_cases : List String) : Int :=
  ((use_cases.filter fun uc => (c.operations uc).isSome).map (otOf c)).sum

/-- Modelled from the spec's words for the claim that the service weight sums
`OT` over all use cases in the service's list, "including use cases whose name
has no entry in the operations catalogue": the sum of `OT` over the whole
use-case list. -/
def claimedServiceWeight (c : Calculator) (use_cases : List String) : Int :=
  (use_cases.map (otOf c)).sum

/-! ### Concrete fixtures -/

/-- The default operation-type weight table of lines 19-21. -/
def defaultWeights : String → Option Int := fun t =>
  if t = "Create" then some 4
  else if t = "Update" then some 3
  else if t = "Delete" then some 2
  else if t = "Read" then some 1
  else none

/-- The §8 end-to-end scenario: one entity `Order` with two attributes, a
create and a read operation, one scheme with the single service
`OrderService`. -/
def demoCalc : Calculator where
  entities := fun n => if n = "Order" then some ["Order.id", "Order.status"] else none
  operations := fun n =>
    if n = "CreateOrder" then some ⟨[], ["Order.id", "Order.status"]⟩
    else if n = "GetOrder" then some ⟨["Order.id", "Order.status"], []⟩
    else none
  op_type_map := fun n =>
    if n = "CreateOrder" then some "Create"
    else if n = "GetOrder" then some "Read"
    else none
  op_weights := defaultWeights
  schemes := [("scheme1", [⟨"OrderService", ["CreateOrder", "GetOrder"]⟩])]

/-- The single service of the §8 scenario. -/
def demoService : Service := ⟨"OrderService", ["CreateOrder", "GetOrder"]⟩

/-- The expected detail row for `CreateOrder` in the §8 scenario. -/
def demoRecCreate : OpRecord :=
  ⟨"scheme1", "OrderService", 2, 0, 1, 4, 2, 2, "CreateOrder", 0, 2, 2, 2, 4, 5, 1,
    4 / 5, 4 / 5⟩

/-- The expected detail row for `GetOrder` in the §8 scenario. -/
def demoRecGet : OpRecord :=
  ⟨"scheme1", "OrderService", 2, 0, 1, 4, 2, 2, "GetOrder", 2, 0, 2, 2, 1, 5, 1,
    1 / 5, 1 / 5⟩

/-- A calculator whose operations catalogue knows only `Known`; the service
`S` also lists the undefined use case `Ghost`. -/
def mixCalc : Calculator where
  entities := fun _ => none
  operations := fun nm => if nm = "Known" then some ⟨["E.a"], []⟩ else none
  op_type_map := fun _ => none
  op_weights := defaultWeights
  schemes := [("mix", [⟨"S", ["Known", "Ghost"]⟩])]

/-- A service with a known and an unknown use case. -/
def mixService : Service := ⟨"S", ["Known", "Ghost"]⟩

/-- A service all of whose use cases are unknown to `mixCalc`. -/
def ghostService : Service := ⟨"G", ["Ghost1", "Ghost2"]⟩

/-- A calculator with no schemes at all. -/
def emptyCalc : Calculator :=
  ⟨fun _ => none, fun _ => none, fun _ => none, defaultWeights, []⟩

/-- A calculator whose first scheme has no services and whose second is the
§8 scheme. -/
def badCalc : Calculator :=
  ⟨fun _ => none, demoCalc.operations, demoCalc.op_type_map, defaultWeights,
    [("bad", []), ("scheme1", [demoService])]⟩

/-! ### Fold lemmas: the DGS/weight loop -/

theorem detailFold_shift (c : Calculator) (rp wp : Finset String) :
    ∀ (l : List String) (acc : List OpDetail × Int),
      l.foldl (detailStep c rp wp) acc =
        (acc.1 ++ (l.foldl (detailStep c rp wp) ([], 0)).1,
         acc.2 + (l.foldl (detailStep c rp wp) ([], 0)).2) := by
  intro l
  induction l with
  | nil => intro acc; simp
  | cons uc l ih =>
    intro acc
    simp only [List.foldl_cons]
    cases h : c.operations uc with
    | none =>
      simp only [detailStep, h]
      exact ih acc
    | some op =>
      simp only [detailStep, h]
      rw [ih (acc.1 ++ [detailFor c rp wp uc op], acc.2 + otOf c uc),
        ih ([] ++ [detailFor c rp wp uc op], 0 + otOf c uc)]
      simp [List.append_assoc, add_assoc]

theorem detailWeight_eq_sum (c : Calculator) (rp wp : Finset String) :
    ∀ l : List String,
      (opDetailsAndWeight c l rp wp).2 =
        ((opDetailsAndWeight c l rp wp).1.map OpDetail.ot).sum := by
  intro l
  induction l with
  | nil => simp [opDetailsAndWeight]
  | cons uc l ih =>
    simp only [opDetailsAndWeight, List.foldl_cons] at *
    cases h : c.operations uc with
    | none => simp only [detailStep, h]; exact ih
    | some op =>
      simp only [detailStep, h]
      rw [detailFold_shift c rp wp l ([] ++ [detailFor c rp wp uc op], 0 + otOf c uc)]
      simp [detailFor, ih, add_comm]

theorem detailWeight_eq_known (c : Calculator) (rp wp : Finset String) :
    ∀ l : List String,
      (opDetailsAndWeight c l rp wp).2 = knownWeightSum c l := by
  intro l
  induction l with
  | nil => simp [opDetailsAndWeight, knownWeightSum]
  | cons uc l ih =>
    simp only [opDetailsAndWeight, List.foldl_cons] at *
    cases h : c.operations uc with
    | none =>
      simp only [detailStep, h, knownWeightSum, List.filter_cons, h, Option.isSome_none,
        Bool.false_eq_true, if_false]
      simpa [knownWeightSum] using ih
    | some op =>
      simp only [detailStep, h]
      rw [detailFold_shift c rp wp l ([] ++ [detailFor c rp wp uc op], 0 + otOf c uc)]
      simp only [knownWeightSum, List.filter_cons, h, Option.isSome_some, if_true,
        List.map_cons, List.sum_cons]
      simp only [knownWeightSum] at ih
      simp [ih, add_comm]

theorem mem_detailFold (c : Calculator) (rp wp : Finset String) :
    ∀ (l : List String) (d : OpDetail), d ∈ (opDetailsAndWeight c l rp wp).1 →
      ∃ uc op, c.operations uc = some op ∧ d = detailFor c rp wp uc op := by
  intro l
  induction l with
  | nil => intro d hd; simp [opDetailsAndWeight] at hd
  | cons uc l ih =>
    intro d hd
    simp only [opDetailsAndWeight, List.foldl_cons] at hd
    cases h : c.operations uc with
    | none =>
      simp only [detailStep, h] at hd
      exact ih d hd
    | some op =>
      simp only [detailStep, h] at hd
      rw [detailFold_shift c rp wp l ([] ++ [detailFor c rp wp uc op], 0 + otOf c uc)] at hd
      simp only [List.nil_append, List.singleton_append, List.mem_cons] at hd
      rcases hd with rfl | hd
      · exact ⟨uc, op, h, rfl⟩
      · exact ih d hd

theorem aggregate_all_unknown (ops : String → Option Operation) :
    ∀ l : List String, (∀ uc ∈ l, ops uc = none) →
      aggregateParams ops l = AggState.init := by
  intro l
  induction l with
  | nil => intro _; simp [aggregateParams]
  | cons uc l ih =>
    intro h
    simp only [aggregateParams, List.foldl_cons, h uc (List.mem_cons_self uc l)]
    exact ih fun x hx => h x (List.mem_cons_of_mem uc hx)

theorem details_all_unknown (c : Calculator) (rp wp : Finset String) :
    ∀ l : List String, (∀ uc ∈ l, c.operations uc = none) →
      opDetailsAndWeight c l rp wp = ([], 0) := by
  intro l
  induction l with
  | nil => intro _; simp [opDetailsAndWeight]
  | cons uc l ih =>
    intro h
    simp only [opDetailsAndWeight, List.foldl_cons, detailStep,
      h uc (List.mem_cons_self uc l)]
    exact ih fun x hx => h x (List.mem_cons_of_mem uc hx)

theorem fpOf_eq_max (s : Finset String) : fpOf s = max 1 s.card := by
  unfold fpOf
  split
  · next h => simp [h]
  · next h =>
    have : 0 < s.card := Finset.card_pos.mpr (Finset.nonempty_iff_ne_empty.mpr h)
    omega

theorem schemeFold_shift (c : Calculator) (n : String) :
    ∀ (l : List Service) (acc : List OpRecord × ℚ × ℚ × Nat),
      l.foldl (schemeStep c n) acc =
        (acc.1 ++ (l.foldl (schemeStep c n) ([], 0, 0, 0)).1,
         acc.2.1 + (l.foldl (schemeStep c n) ([], 0, 0, 0)).2.1,
         acc.2.2.1 + (l.foldl (schemeStep c n) ([], 0, 0, 0)).2.2.1,
         max acc.2.2.2 (l.foldl (schemeStep c n) ([], 0, 0, 0)).2.2.2) := by
  intro l
  induction l with
  | nil => intro acc; simp
  | cons svc l ih =>
    intro acc
    simp only [List.foldl_cons]
    by_cases h : svc.use_cases = []
    · simp only [schemeStep, h, if_true]
      exact ih acc
    · simp only [schemeStep, h, if_false]
      rw [ih (acc.1 ++ (processService c n svc).records,
            acc.2.1 + (processService c n svc).lcom,
            acc.2.2.1 + (processService c n svc).sgm,
            max acc.2.2.2 svc.use_cases.length),
          ih (([] : List OpRecord) ++ (processService c n svc).records,
            (0 : ℚ) + (processService c n svc).lcom,
            (0 : ℚ) + (processService c n svc).sgm,
            max 0 svc.use_cases.length)]
      simp [List.append_assoc, add_assoc, Nat.max_assoc]

theorem alcomFold_eq (c : Calculator) (n : String) :
    ∀ l : List Service,
      (l.foldl (schemeStep c n) ([], 0, 0, 0)).2.1 =
        (l.map (serviceLCOM c n)).sum := by
  intro l
  induction l with
  | nil => simp
  | cons svc l ih =>
    simp only [List.foldl_cons, List.map_cons, List.sum_cons]
    by_cases h : svc.use_cases = []
    · rw [show schemeStep c n ([], 0, 0, 0) svc = ([], 0, 0, 0) from by
        simp [schemeStep, h], ih]
      simp [serviceLCOM, h]
    · rw [show schemeStep c n ([], 0, 0, 0) svc = ((processService c n svc).records,
          (processService c n svc).lcom, (processService c n svc).sgm,
          svc.use_cases.length) from by simp [schemeStep, h],
        schemeFold_shift c n l]
      simp only [ih, serviceLCOM, if_neg h]

theorem asgmFold_eq (c : Calculator) (n : String) :
    ∀ l : List Service,
      (l.foldl (schemeStep c n) ([], 0, 0, 0)).2.2.1 =
        (l.map (serviceSGM c n)).sum := by
  intro l
  induction l with
  | nil => simp
  | cons svc l ih =>
    simp only [List.foldl_cons, List.map_cons, List.sum_cons]
    by_cases h : svc.use_cases = []
    · rw [show schemeStep c n ([], 0, 0, 0) svc = ([], 0, 0, 0) from by
        simp [schemeStep, h], ih]
      simp [serviceSGM, h]
    · rw [show schemeStep c n ([], 0, 0, 0) svc = ((processService c n svc).records,
          (processService c n svc).lcom, (processService c n svc).sgm,
          svc.use_cases.length) from by simp [schemeStep, h],
        schemeFold_shift c n l]
      simp only [ih, serviceSGM, if_neg h]

theorem maxnooFold_eq (c : Calculator) (n : String) :
    ∀ (l : List Service) (acc : List OpRecord × ℚ × ℚ × Nat),
      (l.foldl (schemeStep c n) acc).2.2.2 =
        (l.map fun s => s.use_cases.length).foldl max acc.2.2.2 := by
  intro l
  induction l with
  | nil => intro acc; simp
  | cons svc l ih =>
    intro acc
    simp only [List.foldl_cons, List.map_cons]
    by_cases h : svc.use_cases = []
    · simp only [schemeStep, h, if_true, ih, h, List.length_nil, Nat.max_zero]
    · simp only [schemeStep, h, if_false, ih]

theorem mem_schemeFold (c : Calculator) (n : String) :
    ∀ (l : List Service) (r : OpRecord),
      r ∈ (l.foldl (schemeStep c n) ([], 0, 0, 0)).1 →
      ∃ svc ∈ l, svc.use_cases ≠ [] ∧ r ∈ (processService c n svc).records := by
  intro l
  induction l with
  | nil => intro r hr; simp at hr
  | cons svc l ih =>
    intro r hr
    simp only [List.foldl_cons] at hr
    by_cases h : svc.use_cases = []
    · simp only [schemeStep, h, if_true] at hr
      obtain ⟨s, hs, hne, hr⟩ := ih r hr
      exact ⟨s, List.mem_cons_of_mem svc hs, hne, hr⟩
    · simp only [schemeStep, h, if_false] at hr
      rw [schemeFold_shift c n l] at hr
      simp only [List.nil_append, List.mem_append] at hr
      rcases hr with hr | hr
      · exact ⟨svc, List.mem_cons_self svc l, h, hr⟩
      · obtain ⟨s, hs, hne, hr⟩ := ih r hr
        exact ⟨s, List.mem_cons_of_mem svc hs, hne, hr⟩

theorem calculate_scheme_metrics_ok (c : Calculator) (n : String)
    (services : List Service) (h : services ≠ []) :
    calculate_scheme_metrics c n services =
      .ok ((services.foldl (schemeStep c n) ([], 0, 0, 0)).1,
        ⟨(services.map (serviceLCOM c n)).sum / (services.length : ℚ),
         (services.map (serviceSGM c n)).sum / (services.length : ℚ),
         (services.map fun s => s.use_cases.length).foldl max 0⟩) := by
  have hlen : 0 < services.length := List.length_pos.mpr h
  simp only [calculate_scheme_metrics, h, if_false, hlen, if_true,
    alcomFold_eq, asgmFold_eq, maxnooFold_eq]

/-! ### Fold lemmas: the scheme loop and the batch loop -/

theorem batchFold_shift (c : Calculator) :
    ∀ (l : List (String × List Service)) (acc : List OpRecord × List SchemeSummary),
      l.foldl (batchStep c) acc =
        (acc.1 ++ (l.foldl (batchStep c) ([], [])).1,
         acc.2 ++ (l.foldl (batchStep c) ([], [])).2) := by
  intro l
  induction l with
  | nil => intro acc; simp
  | cons s l ih =>
    intro acc
    simp only [List.foldl_cons]
    cases h : calculate_scheme_metrics c s.1 s.2 with
    | error e =>
      simp only [batchStep, h]
      exact ih acc
    | ok rm =>
      simp only [batchStep, h]
      rw [ih (acc.1 ++ rm.1, acc.2 ++
          [(⟨s.1, rm.2.ALCOM, rm.2.ASGM, rm.2.Max_NOO⟩ : SchemeSummary)]),
        ih (([] : List OpRecord) ++ rm.1,
          ([] : List SchemeSummary) ++
            [(⟨s.1, rm.2.ALCOM, rm.2.ASGM, rm.2.Max_NOO⟩ : SchemeSummary)])]
      simp [List.append_assoc]

theorem mem_batchFold (c : Calculator) :
    ∀ (l : List (String × List Service)) (r : OpRecord),
      r ∈ (l.foldl (batchStep c) ([], [])).1 →
      ∃ s ∈ l, ∃ res m, calculate_scheme_metrics c s.1 s.2 = .ok (res, m) ∧ r ∈ res := by
  intro l
  induction l with
  | nil => intro r hr; simp at hr
  | cons s l ih =>
    intro r hr
    simp only [List.foldl_cons] at hr
    cases h : calculate_scheme_metrics c s.1 s.2 with
    | error e =>
      simp only [batchStep, h] at hr
      obtain ⟨s', hs', res, m, hok, hr⟩ := ih r hr
      exact ⟨s', List.mem_cons_of_mem s hs', res, m, hok, hr⟩
    | ok rm =>
      simp only [batchStep, h] at hr
      rw [batchFold_shift c l] at hr
      simp only [List.nil_append, List.mem_append] at hr
      rcases hr with hr | hr
      · exact ⟨s, List.mem_cons_self s l, rm.1, rm.2, by rw [h], hr⟩
      · obtain ⟨s', hs', res, m, hok, hr⟩ := ih r hr
        exact ⟨s', List.mem_cons_of_mem s hs', res, m, hok, hr⟩

theorem sum_map_intCast_div (w : ℚ) :
    ∀ l : List Int, (l.map fun x : Int => (x : ℚ) / w).sum = ((l.sum : Int) : ℚ) / w := by
  intro l
  induction l with
  | nil => simp
  | cons x l ih =>
    simp only [List.map_cons, List.sum_cons, ih, Int.cast_add, add_div]

theorem foldl_max_le_init : ∀ (l : List Nat) (a : Nat), a ≤ l.foldl max a := by
  intro l
  induction l with
  | nil => intro a; simp
  | cons x l ih =>
    intro a
    exact le_trans (Nat.le_max_left a x) (ih (max a x))

theorem mem_le_foldl_max : ∀ (l : List Nat) (a x : Nat), x ∈ l → x ≤ l.foldl max a := by
  intro l
  induction l with
  | nil => intro a x hx; simp at hx
  | cons y l ih =>
    intro a x hx
    rcases List.mem_cons.mp hx with rfl | hx
    · exact le_trans (Nat.le_max_right a x) (foldl_max_le_init l (max a x))
    · exact ih (max a y) x hx

theorem mem_processService_records (c : Calculator) (n : String) (svc : Service)
    (r : OpRecord) (h : r ∈ (processService c n svc).records) :
    r.scheme = n ∧ r.service = svc.name ∧ r.noo = svc.use_cases.length
    ∧ r.m = svc.use_cases.length
    ∧ r.f = (aggregateParams c.operations svc.use_cases).all_params.card
    ∧ r.mf = mfSum (aggregateParams c.operations svc.use_cases)
    ∧ r.lcom = (processService c n svc).lcom
    ∧ r.sgm = (processService c n svc).sgm
    ∧ r.o = serviceWeightOf c svc
    ∧ ∃ d ∈ (opDetailsAndWeight c svc.use_cases
        (aggregateParams c.operations svc.use_cases).read_params
        (aggregateParams c.operations svc.use_cases).write_params).1,
        r.operation = d.operation ∧ r.ipr = d.ipr ∧ r.opr = d.opr ∧ r.fp = d.fp
        ∧ r.cp = d.cp ∧ r.ot = d.ot ∧ r.dgs = d.dgs
        ∧ r.fgs = (if serviceWeightOf c svc > 0
            then (d.ot : ℚ) / (serviceWeightOf c svc : ℚ) else 0)
        ∧ r.sgm_op = d.dgs * r.fgs := by
  simp only [processService, List.map_map, List.mem_map, Function.comp] at h
  obtain ⟨d, hd, rfl⟩ := h
  refine ⟨rfl, rfl, rfl, rfl, rfl, rfl, ?_, ?_, rfl, d, hd, rfl, rfl, rfl, rfl, rfl,
    rfl, rfl, rfl, rfl⟩
  · simp only [processService, List.map_map, Function.comp]
  · simp only [processService, List.map_map, Function.comp]

theorem processService_lcom (c : Calculator) (n : String) (svc : Service) :
    (processService c n svc).lcom =
      if svc.use_cases.length *
          (aggregateParams c.operations svc.use_cases).all_params.card > 0
      then 1 - (mfSum (aggregateParams c.operations svc.use_cases) : ℚ) /
        ((svc.use_cases.length : ℚ) *
          ((aggregateParams c.operations svc.use_cases).all_params.card : ℚ))
      else 0 := rfl

theorem processService_sgm_eq (c : Calculator) (n : String) (svc : Service) :
    (processService c n svc).sgm =
      ((processService c n svc).records.map OpRecord.sgm_op).sum := by
  simp only [processService, List.map_map, Function.comp_def]

theorem detailFor_dgs_eq (c : Calculator) (rp wp : Finset String) (uc : String)
    (op : Operation) :
    (detailFor c rp wp uc op).dgs =
      min 1 (((detailFor c rp wp uc op).ipr : ℚ) /
          ((max 1 (detailFor c rp wp uc op).fp : ℕ) : ℚ) +
        ((detailFor c rp wp uc op).opr : ℚ) /
          ((max 1 (detailFor c rp wp uc op).cp : ℕ) : ℚ)) := rfl

theorem processService_map_fgs (c : Calculator) (n : String) (svc : Service) :
    (processService c n svc).records.map OpRecord.fgs =
      ((opDetailsAndWeight c svc.use_cases
          (aggregateParams c.operations svc.use_cases).read_params
          (aggregateParams c.operations svc.use_cases).write_params).1.map
        fun d => if serviceWeightOf c svc > 0
          then (d.ot : ℚ) / (serviceWeightOf c svc : ℚ) else 0) := by
  simp only [processService, List.map_map, Function.comp]
  rfl

/-- C2: for every record emitted by `calculate_scheme_metrics` there is a
service of the scheme whose use-case count `M`, distinct accessed-attribute
count `F` and access-counter sum `MF` the record carries, and the record's
LCOM equals `1 − MF/(M·F)` when `M·F > 0` and `0` otherwise; in particular
LCOM is `0` whenever `MF = M·F`. -/
theorem lcom_matches_formula (c : Calculator) (n : String) (services : List Service)
    (res : List OpRecord) (m : SchemeMetrics)
    (hok : calculate_scheme_metrics c n services = .ok (res, m)) :
    ∀ r ∈ res, ∃ svc ∈ services, r.service = svc.name
      ∧ r.m = svc.use_cases.length
      ∧ r.f = (aggregateParams c.operations svc.use_cases).all_params.card
      ∧ r.mf = mfSum (aggregateParams c.operations svc.use_cases)
      ∧ (r.lcom = if r.m * r.f > 0
          then 1 - (r.mf : ℚ) / ((r.m : ℚ) * (r.f : ℚ)) else 0)
      ∧ (r.mf = r.m * r.f → r.lcom = 0) := by
  have hne : services ≠ [] := by
    intro he
    rw [he] at hok
    simp [calculate_scheme_metrics] at hok
  rw [calculate_scheme_metrics_ok c n services hne] at hok
  simp only [Except.ok.injEq, Prod.mk.injEq] at hok
  intro r hr
  rw [← hok.1] at hr
  obtain ⟨svc, hsvc, _, hmem⟩ := mem_schemeFold c n services r hr
  obtain ⟨_, hsrv, _, hm, hf, hmf, hlcom, _⟩ := mem_processService_records c n svc r hmem
  refine ⟨svc, hsvc, hsrv, hm, hf, hmf, ?_, ?_⟩
  · rw [hlcom, processService_lcom, hm, hf, hmf]
  · intro hprod
    rw [hlcom, processService_lcom]
    rw [hm, hf, hmf] at hprod
    by_cases hp : svc.use_cases.length *
        (aggregateParams c.operations svc.use_cases).all_params.card > 0
    · rw [if_pos hp, hprod]
      rw [sub_eq_zero]
      rw [eq_comm, div_eq_one_iff_eq]
      · push_cast
        ring
      · have : ((svc.use_cases.length *
            (aggregateParams c.operations svc.use_cases).all_params.card : ℕ) : ℚ) ≠ 0 := by
          exact_mod_cast Nat.pos_iff_ne_zero.mp hp
        push_cast at this
        exact fun hz => this (by rw [hz])
    · rw [if_neg hp]

/-- C3: every record of every scheme carries `DGS = min(1, IPR/max(1,FP) +
OPR/max(1,CP))`, hence `DGS ≤ 1`; and `FP`/`CP` are the sizes of the service's
aggregate read/write parameter sets floored at 1. -/
theorem dgs_capped (c : Calculator) :
    (∀ r ∈ (calculate_metrics c).1, r.dgs ≤ 1
      ∧ r.dgs = min 1 ((r.ipr : ℚ) / ((max 1 r.fp : ℕ) : ℚ) +
          (r.opr : ℚ) / ((max 1 r.cp : ℕ) : ℚ)))
    ∧ ∀ (n : String) (svc : Service), ∀ r ∈ (processService c n svc).records,
        r.fp = max 1 (aggregateParams c.operations svc.use_cases).read_params.card
        ∧ r.cp = max 1 (aggregateParams c.operations svc.use_cases).write_params.card := by
  have keyDgs : ∀ (n : String) (svc : Service), ∀ r ∈ (processService c n svc).records,
      r.dgs = min 1 ((r.ipr : ℚ) / ((max 1 r.fp : ℕ) : ℚ) +
        (r.opr : ℚ) / ((max 1 r.cp : ℕ) : ℚ)) := by
    intro n svc r hr
    obtain ⟨_, _, _, _, _, _, _, _, _, d, hd, _, hipr, hopr, hfp, hcp, _, hdgs, _, _⟩ :=
      mem_processService_records c n svc r hr
    obtain ⟨uc, op, _, rfl⟩ := mem_detailFold c _ _ svc.use_cases d hd
    rw [hdgs, hipr, hopr, hfp, hcp]
    exact detailFor_dgs_eq c _ _ uc op
  constructor
  · intro r hr
    by_cases hs : c.schemes = []
    · rw [calculate_metrics, if_pos hs] at hr
      simp at hr
    · rw [calculate_metrics, if_neg hs] at hr
      obtain ⟨s, _, res, m, hok, hr⟩ := mem_batchFold c c.schemes r hr
      have hne : s.2 ≠ [] := by
        intro he
        rw [he] at hok
        simp [calculate_scheme_metrics] at hok
      rw [calculate_scheme_metrics_ok c s.1 s.2 hne] at hok
      simp only [Except.ok.injEq, Prod.mk.injEq] at hok
      rw [← hok.1] at hr
      obtain ⟨svc, _, _, hmem⟩ := mem_schemeFold c s.1 s.2 r hr
      have hd := keyDgs s.1 svc r hmem
      exact ⟨hd ▸ min_le_left _ _, hd⟩
  · intro n svc r hr
    obtain ⟨_, _, _, _, _, _, _, _, _, d, hd, _, _, _, hfp, hcp, _, _, _, _⟩ :=
      mem_processService_records c n svc r hr
    obtain ⟨uc, op, _, rfl⟩ := mem_detailFold c _ _ svc.use_cases d hd
    constructor
    · rw [hfp]
      exact fpOf_eq_max _
    · rw [hcp]
      exact fpOf_eq_max _

/-- C4: in a service with positive `service_weight`, the emitted FGS values
sum to exactly 1, each FGS is `OT/service_weight`, and the SGM carried by
every record of the service is the sum of `DGS×FGS` over its records. -/
theorem fgs_sums_to_one (c : Calculator) (n : String) (svc : Service)
    (hw : 0 < serviceWeightOf c svc) :
    ((processService c n svc).records.map OpRecord.fgs).sum = 1
    ∧ ∀ r ∈ (processService c n svc).records,
        r.fgs = (r.ot : ℚ) / (serviceWeightOf c svc : ℚ)
        ∧ r.sgm_op = r.dgs * r.fgs
        ∧ r.sgm = ((processService c n svc).records.map OpRecord.sgm_op).sum := by
  have hcast : ((serviceWeightOf c svc : Int) : ℚ) ≠ 0 := by
    exact_mod_cast hw.ne'
  refine ⟨?_, ?_⟩
  · rw [processService_map_fgs]
    have hmm : ((opDetailsAndWeight c svc.use_cases
        (aggregateParams c.operations svc.use_cases).read_params
        (aggregateParams c.operations svc.use_cases).write_params).1.map
          fun d => if serviceWeightOf c svc > 0
            then (d.ot : ℚ) / (serviceWeightOf c svc : ℚ) else 0) =
        ((opDetailsAndWeight c svc.use_cases
          (aggregateParams c.operations svc.use_cases).read_params
          (aggregateParams c.operations svc.use_cases).write_params).1.map
            OpDetail.ot).map fun x : Int => (x : ℚ) / (serviceWeightOf c svc : ℚ) := by
      rw [List.map_map]
      refine List.map_congr_left fun d _ => ?_
      simp [Function.comp, if_pos hw]
    rw [hmm, sum_map_intCast_div, ← detailWeight_eq_sum]
    rw [show (opDetailsAndWeight c svc.use_cases
        (aggregateParams c.operations svc.use_cases).read_params
        (aggregateParams c.operations svc.use_cases).write_params).2 =
      serviceWeightOf c svc from rfl]
    exact div_self hcast
  · intro r hr
    obtain ⟨_, _, _, _, _, _, _, hsgm, _, d, _, _, _, _, _, _, hot, hdgs, hfgs, hsgm_op⟩ :=
      mem_processService_records c n svc r hr
    exact ⟨by rw [hfgs, if_pos hw, hot], by rw [hsgm_op, hdgs],
      by rw [hsgm, processService_sgm_eq]⟩

/-- C5 (amended): every emitted record's service weight `O` is the sum of
`OT` over the use cases of the service that have an entry in the operations
catalogue (unknown use-case names contribute nothing). -/
theorem service_weight_known_sum (c : Calculator) (n : String) (svc : Service) :
    ∀ r ∈ (processService c n svc).records,
      r.o = knownWeightSum c svc.use_cases := by
  intro r hr
  obtain ⟨_, _, _, _, _, _, _, _, ho, _⟩ :=
    mem_processService_records c n svc r hr
  rw [ho, serviceWeightOf, detailWeight_eq_known]

/-- C6: the scheme summary's ALCOM and ASGM are the per-service LCOM/SGM sums
divided by the total number of declared services, where a service skipped for
an empty use-case list contributes `0` to the sums. -/
theorem scheme_averages (c : Calculator) (n : String) (services : List Service)
    (res : List OpRecord) (m : SchemeMetrics)
    (hok : calculate_scheme_metrics c n services = .ok (res, m)) :
    m.ALCOM = (services.map (serviceLCOM c n)).sum / (services.length : ℚ)
    ∧ m.ASGM = (services.map (serviceSGM c n)).sum / (services.length : ℚ) := by
  have hne : services ≠ [] := by
    intro he
    rw [he] at hok
    simp [calculate_scheme_metrics] at hok
  rw [calculate_scheme_metrics_ok c n services hne] at hok
  simp only [Except.ok.injEq, Prod.mk.injEq] at hok
  rw [← hok.2]
  exact ⟨rfl, rfl⟩

/-- C7: the scheme summary's `Max_NOO` is the maximum use-case-list length
over all the scheme's services (an all-empty scheme yields 0). -/
theorem max_noo_eq (c : Calculator) (n : String) (services : List Service)
    (res : List OpRecord) (m : SchemeMetrics)
    (hok : calculate_scheme_metrics c n services = .ok (res, m)) :
    m.Max_NOO = (services.map fun s => s.use_cases.length).foldl max 0 := by
  have hne : services ≠ [] := by
    intro he
    rw [he] at hok
    simp [calculate_scheme_metrics] at hok
  rw [calculate_scheme_metrics_ok c n services hne] at hok
  simp only [Except.ok.injEq, Prod.mk.injEq] at hok
  rw [← hok.2]

/-- C8: a scheme with no services raises a structural validation error; an
empty scheme map yields two empty collections; and a scheme whose processing
raises is skipped by the batch loop while every other scheme is still
processed. -/
theorem error_isolation :
    (∀ (c : Calculator) (n : String),
      calculate_scheme_metrics c n [] = .error "No services defined for this scheme")
    ∧ (∀ c : Calculator, c.schemes = [] → calculate_metrics c = ([], []))
    ∧ ∀ (c : Calculator) (pre post : List (String × List Service))
        (entry : String × List Service) (e : String),
        c.schemes = pre ++ entry :: post →
        calculate_scheme_metrics c entry.1 entry.2 = .error e →
        calculate_metrics c = calcSchemes c (pre ++ post) := by
  refine ⟨fun c n => rfl, fun c h => by rw [calculate_metrics, if_pos h], ?_⟩
  have hskip : ∀ (c : Calculator) (pre post : List (String × List Service))
      (entry : String × List Service) (e : String),
      calculate_scheme_metrics c entry.1 entry.2 = .error e →
      calcSchemes c (pre ++ entry :: post) = calcSchemes c (pre ++ post) := by
    intro c pre
    induction pre with
    | nil =>
      intro post entry e he
      simp only [List.nil_append, calcSchemes, List.foldl_cons, batchStep, he]
    | cons p pre ih =>
      intro post entry e he
      simp only [List.cons_append, calcSchemes, List.foldl_cons]
      rw [batchFold_shift c (pre ++ entry :: post), batchFold_shift c (pre ++ post)]
      have hih := ih post entry e he
      simp only [calcSchemes] at hih
      rw [hih]
  intro c pre post entry e hs he
  have hnn : c.schemes ≠ [] := by
    rw [hs]
    cases pre <;> simp
  rw [calculate_metrics, if_neg hnn, hs]
  exact hskip c pre post entry e he

/-- C9: `calculate_metrics` only reads the calculator state: the post-state
catalogues all equal the pre-state ones, and a second invocation on the
post-state returns the same two collections. -/
theorem calculate_metrics_pure (c : Calculator) :
    (calculate_metricsRun c).2.entities = c.entities
    ∧ (calculate_metricsRun c).2.operations = c.operations
    ∧ (calculate_metricsRun c).2.op_type_map = c.op_type_map
    ∧ (calculate_metricsRun c).2.op_weights = c.op_weights
    ∧ (calculate_metricsRun c).2.schemes = c.schemes
    ∧ (calculate_metricsRun ((calculate_metricsRun c).2)).1 = (calculate_metricsRun c).1 :=
  ⟨rfl, rfl, rfl, rfl, rfl, rfl⟩

/-- C10: a service whose (non-empty) use-case list names only unknown
operations emits no records, contributes LCOM 0 and SGM 0 to the scheme sums,
still counts in the averages' denominator, and still pushes `Max_NOO` to at
least its use-case count. -/
theorem unknown_only_service (c : Calculator) (n : String) (svc : Service)
    (hne : svc.use_cases ≠ [])
    (hunk : ∀ uc ∈ svc.use_cases, c.operations uc = none) :
    (processService c n svc).records = []
    ∧ serviceLCOM c n svc = 0 ∧ serviceSGM c n svc = 0
    ∧ ∀ (services : List Service) (res : List OpRecord) (m : SchemeMetrics),
        svc ∈ services →
        calculate_scheme_metrics c n services = .ok (res, m) →
        svc.use_cases.length ≤ m.Max_NOO
        ∧ m.ALCOM = (services.map (serviceLCOM c n)).sum / (services.length : ℚ)
        ∧ m.ASGM = (services.map (serviceSGM c n)).sum / (services.length : ℚ) := by
  have hagg : aggregateParams c.operations svc.use_cases = AggState.init :=
    aggregate_all_unknown c.operations svc.use_cases hunk
  have hps : processService c n svc = ⟨[], 0, 0⟩ := by
    simp [processService, hagg, details_all_unknown c _ _ svc.use_cases hunk,
      mfSum, AggState.init]
  refine ⟨by rw [hps], ?_, ?_, ?_⟩
  · rw [serviceLCOM, if_neg hne, hps]
  · rw [serviceSGM, if_neg hne, hps]
  · intro services res m hmem hok
    have hsne : services ≠ [] := List.ne_nil_of_mem hmem
    rw [calculate_scheme_metrics_ok c n services hsne] at hok
    simp only [Except.ok.injEq, Prod.mk.injEq] at hok
    refine ⟨?_, by rw [← hok.2], by rw [← hok.2]⟩
    rw [← hok.2]
    exact mem_le_foldl_max _ 0 svc.use_cases.length
      (List.mem_map_of_mem (fun s => s.use_cases.length) hmem)

/-! ### Concrete evaluations of the fixtures -/

theorem demo_service_eval :
    processService demoCalc "scheme1" demoService =
      ⟨[demoRecCreate, demoRecGet], 0, 1⟩ := by
  have hsum : (∑ x ∈ ({"Order.status", "Order.id"} : Finset String),
      Function.update (Function.update
        (Function.update (Function.update (fun _ => 0) "Order.id" 1) "Order.status" 1)
          "Order.id" 2) "Order.status" 2 x) = 4 := by decide
  have hcA : ({"Order.status", "Order.id"} : Finset String).card = 2 := by decide
  have hcB : ({"Order.id", "Order.status"} : Finset String).card = 2 := by decide
  simp only [processService, aggregateParams, opDetailsAndWeight, detailStep, detailFor,
    otOf, fpOf, mfSum, AggState.init, AggState.addRead, AggState.addWrite,
    demoCalc, demoService, demoRecCreate, demoRecGet, defaultWeights,
    List.foldl_cons, List.foldl_nil, List.map_cons,
    List.map_nil, List.sum_cons, List.sum_nil, String.reduceEq, reduceIte,
    reduceCtorEq, Option.getD_some, Option.getD_none, List.toFinset_cons,
    List.toFinset_nil]
  simp only [Finset.sum_insert, Finset.mem_insert, Finset.mem_singleton,
    Finset.card_insert_of_not_mem, Finset.card_singleton, Finset.sum_singleton,
    Function.update_same, Function.update_noteq, Finset.insert_nonempty,
    Finset.singleton_nonempty, String.reduceEq, List.length_cons, List.length_nil,
    not_false_eq_true, ne_eq]
  norm_num [min_def]
  have hsumQ : (∑ x ∈ ({"Order.status", "Order.id"} : Finset String),
      ((Function.update (Function.update
        (Function.update (Function.update (fun _ => 0) "Order.id" 1) "Order.status" 1)
          "Order.id" 2) "Order.status" 2 x : ℕ) : ℚ)) = 4 := by
    exact_mod_cast hsum
  simp only [hsum, hsumQ, hcA, hcB]
  norm_num

theorem demo_scheme_eval :
    calculate_scheme_metrics demoCalc "scheme1" [demoService] =
      .ok ([demoRecCreate, demoRecGet], ⟨0, 1, 2⟩) := by
  have hne : demoService.use_cases ≠ [] := by simp [demoService]
  have hstep : schemeStep demoCalc "scheme1" ([], 0, 0, 0) demoService =
      ([demoRecCreate, demoRecGet], 0, 1, 2) := by
    simp only [schemeStep, if_neg hne, demo_service_eval]
    simp [demoService]
  have hL : serviceLCOM demoCalc "scheme1" demoService = 0 := by
    rw [serviceLCOM, if_neg hne, demo_service_eval]
  have hS : serviceSGM demoCalc "scheme1" demoService = 1 := by
    rw [serviceSGM, if_neg hne, demo_service_eval]
  rw [calculate_scheme_metrics_ok demoCalc "scheme1" [demoService] (by simp)]
  simp only [List.foldl_cons, List.foldl_nil, hstep, List.map_cons, List.map_nil,
    List.sum_cons, List.sum_nil, hL, hS, List.length_cons, List.length_nil]
  norm_num [demoService]

theorem demo_metrics_eval :
    calculate_metrics demoCalc =
      ([demoRecCreate, demoRecGet], [⟨"scheme1", 0, 1, 2⟩]) := by
  rw [calculate_metrics, if_neg (by simp [demoCalc])]
  show calcSchemes demoCalc [("scheme1", [demoService])] = _
  simp only [calcSchemes, List.foldl_cons, List.foldl_nil, batchStep, demo_scheme_eval,
    List.nil_append]

theorem ghost_scheme_eval :
    calculate_scheme_metrics mixCalc "mix" [ghostService] = .ok ([], ⟨0, 0, 2⟩) := by
  have hps : processService mixCalc "mix" ghostService = ⟨[], 0, 0⟩ := by decide
  have hne : ghostService.use_cases ≠ [] := by simp [ghostService]
  have hL : serviceLCOM mixCalc "mix" ghostService = 0 := by
    rw [serviceLCOM, if_neg hne, hps]
  have hS : serviceSGM mixCalc "mix" ghostService = 0 := by
    rw [serviceSGM, if_neg hne, hps]
  have hstep : schemeStep mixCalc "mix" ([], 0, 0, 0) ghostService = ([], 0, 0, 2) := by
    simp only [schemeStep, if_neg hne, hps]
    simp [ghostService]
  rw [calculate_scheme_metrics_ok mixCalc "mix" [ghostService] (by simp)]
  simp only [List.foldl_cons, List.foldl_nil, hstep, List.map_cons, List.map_nil,
    List.sum_cons, List.sum_nil, hL, hS, List.length_cons, List.length_nil]
  norm_num [ghostService]

/-! ### Claim theorems for the concrete scenarios -/

/-- C1: the §8 end-to-end scenario: `calculate_scheme_metrics` on the
`Order`-entity catalogue with `CreateOrder`/`GetOrder` in the single service
`OrderService` yields exactly NOO=2, M=2, F=2, MF=4, LCOM=0, O=5;
CreateOrder: IPR=0, OPR=2, FP=2, CP=2, DGS=1, FGS=4/5, SGM_Operation=4/5;
GetOrder: IPR=2, OPR=0, FP=2, CP=2, DGS=1, FGS=1/5, SGM_Operation=1/5;
service SGM=1; scheme ALCOM=0, ASGM=1, Max_NOO=2. -/
theorem demo_scenario_exact :
    calculate_scheme_metrics demoCalc "scheme1" [demoService] =
      .ok ([⟨"scheme1", "OrderService", 2, 0, 1, 4, 2, 2, "CreateOrder",
              0, 2, 2, 2, 4, 5, 1, 4 / 5, 4 / 5⟩,
            ⟨"scheme1", "OrderService", 2, 0, 1, 4, 2, 2, "GetOrder",
              2, 0, 2, 2, 1, 5, 1, 1 / 5, 1 / 5⟩],
           ⟨0, 1, 2⟩) :=
  demo_scheme_eval

/-- C5 counterexample: in `mixService` the unknown use case `Ghost` contributes
nothing to the emitted `O` (the only record carries `O = 1`), while the claimed
sum of `OT` over all use cases of the service is `2`. -/
theorem service_weight_claim_cex :
    (processService mixCalc "mix" mixService).records.map OpRecord.o = [1]
    ∧ claimedServiceWeight mixCalc mixService.use_cases = 2 := by
  constructor
  · decide
  · decide

/-! ### Witnesses -/

theorem lcom_matches_formula_w :
    (calculate_scheme_metrics demoCalc "scheme1" [demoService] =
      .ok ([demoRecCreate, demoRecGet], ⟨0, 1, 2⟩))
    ∧ ∃ svc ∈ [demoService], demoRecCreate.service = svc.name
      ∧ demoRecCreate.m = svc.use_cases.length
      ∧ demoRecCreate.f = (aggregateParams demoCalc.operations svc.use_cases).all_params.card
      ∧ demoRecCreate.mf = mfSum (aggregateParams demoCalc.operations svc.use_cases)
      ∧ (demoRecCreate.lcom = if demoRecCreate.m * demoRecCreate.f > 0
          then 1 - (demoRecCreate.mf : ℚ) /
            ((demoRecCreate.m : ℚ) * (demoRecCreate.f : ℚ)) else 0)
      ∧ (demoRecCreate.mf = demoRecCreate.m * demoRecCreate.f →
          demoRecCreate.lcom = 0) :=
  ⟨demo_scheme_eval,
   lcom_matches_formula demoCalc "scheme1" [demoService] [demoRecCreate, demoRecGet]
     ⟨0, 1, 2⟩ demo_scheme_eval demoRecCreate (List.mem_cons_self _ _)⟩

theorem dgs_capped_w :
    demoRecCreate ∈ (calculate_metrics demoCalc).1
    ∧ demoRecCreate.dgs ≤ 1
    ∧ demoRecCreate.dgs = min 1
        ((demoRecCreate.ipr : ℚ) / ((max 1 demoRecCreate.fp : ℕ) : ℚ) +
          (demoRecCreate.opr : ℚ) / ((max 1 demoRecCreate.cp : ℕ) : ℚ)) :=
  ⟨by rw [demo_metrics_eval]; exact List.mem_cons_self _ _,
   (dgs_capped demoCalc).1 demoRecCreate
     (by rw [demo_metrics_eval]; exact List.mem_cons_self _ _)⟩

theorem fgs_sums_to_one_w :
    0 < serviceWeightOf demoCalc demoService
    ∧ (((processService demoCalc "scheme1" demoService).records.map OpRecord.fgs).sum = 1
      ∧ ∀ r ∈ (processService demoCalc "scheme1" demoService).records,
          r.fgs = (r.ot : ℚ) / (serviceWeightOf demoCalc demoService : ℚ)
          ∧ r.sgm_op = r.dgs * r.fgs
          ∧ r.sgm = ((processService demoCalc "scheme1" demoService).records.map
              OpRecord.sgm_op).sum) :=
  ⟨by decide, fgs_sums_to_one demoCalc "scheme1" demoService (by decide)⟩

theorem service_weight_known_sum_w :
    demoRecCreate ∈ (processService demoCalc "scheme1" demoService).records
    ∧ demoRecCreate.o = knownWeightSum demoCalc demoService.use_cases :=
  ⟨by rw [demo_service_eval]; exact List.mem_cons_self _ _,
   service_weight_known_sum demoCalc "scheme1" demoService demoRecCreate
     (by rw [demo_service_eval]; exact List.mem_cons_self _ _)⟩

theorem scheme_averages_w :
    (calculate_scheme_metrics demoCalc "scheme1" [demoService] =
      .ok ([demoRecCreate, demoRecGet], ⟨0, 1, 2⟩))
    ∧ (SchemeMetrics.mk 0 1 2).ALCOM =
        ([demoService].map (serviceLCOM demoCalc "scheme1")).sum /
          (([demoService].length : ℕ) : ℚ)
    ∧ (SchemeMetrics.mk 0 1 2).ASGM =
        ([demoService].map (serviceSGM demoCalc "scheme1")).sum /
          (([demoService].length : ℕ) : ℚ) :=
  ⟨demo_scheme_eval,
   scheme_averages demoCalc "scheme1" [demoService] [demoRecCreate, demoRecGet]
     ⟨0, 1, 2⟩ demo_scheme_eval⟩

theorem max_noo_eq_w :
    (calculate_scheme_metrics demoCalc "scheme1" [demoService] =
      .ok ([demoRecCreate, demoRecGet], ⟨0, 1, 2⟩))
    ∧ (SchemeMetrics.mk 0 1 2).Max_NOO =
        ([demoService].map fun s => s.use_cases.length).foldl max 0 :=
  ⟨demo_scheme_eval,
   max_noo_eq demoCalc "scheme1" [demoService] [demoRecCreate, demoRecGet]
     ⟨0, 1, 2⟩ demo_scheme_eval⟩

theorem error_isolation_w :
    calculate_scheme_metrics emptyCalc "x" [] =
      .error "No services defined for this scheme"
    ∧ calculate_metrics emptyCalc = ([], [])
    ∧ calculate_metrics badCalc = calcSchemes badCalc ([] ++ [("scheme1", [demoService])]) :=
  ⟨error_isolation.1 emptyCalc "x",
   error_isolation.2.1 emptyCalc rfl,
   error_isolation.2.2 badCalc [] [("scheme1", [demoService])] ("bad", [])
     "No services defined for this scheme" rfl rfl⟩

theorem unknown_only_service_w :
    (ghostService.use_cases ≠ []
      ∧ ∀ uc ∈ ghostService.use_cases, mixCalc.operations uc = none)
    ∧ (processService mixCalc "mix" ghostService).records = []
    ∧ serviceLCOM mixCalc "mix" ghostService = 0
    ∧ serviceSGM mixCalc "mix" ghostService = 0
    ∧ (ghostService.use_cases.length ≤ (SchemeMetrics.mk 0 0 2).Max_NOO
      ∧ (SchemeMetrics.mk 0 0 2).ALCOM =
          ([ghostService].map (serviceLCOM mixCalc "mix")).sum /
            (([ghostService].length : ℕ) : ℚ)
      ∧ (SchemeMetrics.mk 0 0 2).ASGM =
          ([ghostService].map (serviceSGM mixCalc "mix")).sum /
            (([ghostService].length : ℕ) : ℚ)) :=
  ⟨⟨by decide, by decide⟩,
   (unknown_only_service mixCalc "mix" ghostService (by decide) (by decide)).1,
   (unknown_only_service mixCalc "mix" ghostService (by decide) (by decide)).2.1,
   (unknown_only_service mixCalc "mix" ghostService (by decide) (by decide)).2.2.1,
   (unknown_only_service mixCalc "mix" ghostService (by decide) (by decide)).2.2.2
     [ghostService] [] ⟨0, 0, 2⟩ (List.mem_cons_self _ _) ghost_scheme_eval⟩
